import Mathlib

/-!
Verification of the storage core of the pdf-to-xml-converter repository.

The development shallowly embeds:
- the entity model (shared/schema.ts: userSchema, conversionSchema),
- the in-memory backend (server/storage.ts: MemStorage),
- the persistent backend (server/storage.ts: MongoDBStorage), together with a
  model of the MongoDB query operators the backend emits,
- the backend selector / failover controller (server/storage-manager.ts).

Timestamps are modelled as naturals (milliseconds since the epoch), JS numbers
used as sizes as integers, and asynchronous operations as pure functions of an
explicit state.  The evaluation-time clock (new Date() / Date.now()) is passed
as an explicit argument named now.  Strings are Lean strings; the ASCII
fragment of toLowerCase is modelled by Char.toLower.
-/

/-- Entity from conversionSchema in shared/schema.ts.  The id field models
the stringified _id; convertedAt is optional in the schema
(z.date().optional()). -/
structure Conversion where
  id : String
  userId : String
  filename : String
  originalSize : Int
  xmlContent : String
  convertedAt : Option Nat
deriving Repr, DecidableEq

/-- Entity from userSchema in shared/schema.ts. -/
structure User where
  id : String
  email : String
  password : String
  createdAt : Option Nat
deriving Repr, DecidableEq

/-- ConversionFilters interface from server/storage.ts. -/
structure ConversionFilters where
  search : Option String
  dateFrom : Option Nat
  dateTo : Option Nat
  sizeMin : Option Int
  sizeMax : Option Int
deriving Repr, DecidableEq

/-- Sort field of the SortOptions interface from server/storage.ts. -/
inductive SortField where
  | filename
  | convertedAt
  | originalSize
deriving Repr, DecidableEq

/-- Sort order of the SortOptions interface from server/storage.ts. -/
inductive SortOrder where
  | asc
  | desc
deriving Repr, DecidableEq

/-- SortOptions interface from server/storage.ts. -/
structure SortOptions where
  field : SortField
  order : SortOrder
deriving Repr, DecidableEq

/-- PaginationOptions interface from server/storage.ts; page is 1-based. -/
structure PaginationOptions where
  page : Nat
  limit : Nat
deriving Repr, DecidableEq

/-- Model of the ASCII fragment of String.prototype.toLowerCase. -/
def jsToLower (s : String) : String :=
  String.mk (s.data.map Char.toLower)

/-- Check that hay starts with needle, on character lists. -/
def listStartsWith : List Char → List Char → Bool
  | _, [] => true
  | [], _ :: _ => false
  | c :: cs, p :: ps => p == c && listStartsWith cs ps

/-- Model of String.prototype.includes on character lists: needle occurs as a
contiguous run of hay. -/
def listIncludes (hay needle : List Char) : Bool :=
  match hay with
  | [] => needle.isEmpty
  | _ :: t => listStartsWith hay needle || listIncludes t needle

/-- Model of String.prototype.includes. -/
def jsIncludes (hay needle : String) : Bool :=
  listIncludes hay.data needle.data

/-- Lexicographic strict order on character lists by code point, the order JS
string comparison uses on the ASCII fragment. -/
def charListLt : List Char → List Char → Bool
  | _, [] => false
  | [], _ :: _ => true
  | a :: as, b :: bs => a < b || (a == b && charListLt as bs)

/-- Model of the JS string comparison operators on the ASCII fragment. -/
def jsStrLt (a b : String) : Bool :=
  charListLt a.data b.data

/-- Insertion into a sorted list, keeping the inserted element before later
elements that compare equal.  Together with jsSortStable this models the
stable Array.prototype.sort mandated by ES2019, where le a b means that the
comparator returns a non-positive value on (a, b). -/
def jsInsert (le : α → α → Bool) (a : α) : List α → List α
  | [] => [a]
  | b :: l => if le a b then a :: b :: l else b :: jsInsert le a l

/-- Stable sort modelling Array.prototype.sort with a consistent comparator. -/
def jsSortStable (le : α → α → Bool) : List α → List α
  | [] => []
  | a :: l => jsInsert le a (jsSortStable le l)

/-- Value used by MemStorage.getConversions for date filtering: the source
reads conv.convertedAt ? new Date(conv.convertedAt) : new Date(), so a record
without convertedAt is compared against the evaluation-time clock.  The same
value is the default sort key (a.convertedAt ? a.convertedAt.getTime() :
Date.now()). -/
def memConvDate (now : Nat) (c : Conversion) : Nat :=
  c.convertedAt.getD now

/-- Per-comparison order for MemStorage.getConversions, lines 138-158 of
server/storage.ts.  le a b holds exactly when the source comparator returns a
value that is at most zero on (a, b); filename keys are lowercased before
comparison. -/
def memSortLe (field : SortField) (order : SortOrder) (now : Nat)
    (a b : Conversion) : Bool :=
  match field, order with
  | .filename, .asc => !(jsStrLt (jsToLower b.filename) (jsToLower a.filename))
  | .filename, .desc => !(jsStrLt (jsToLower a.filename) (jsToLower b.filename))
  | .originalSize, .asc => decide (a.originalSize ≤ b.originalSize)
  | .originalSize, .desc => decide (b.originalSize ≤ a.originalSize)
  | .convertedAt, .asc => decide (memConvDate now a ≤ memConvDate now b)
  | .convertedAt, .desc => decide (memConvDate now b ≤ memConvDate now a)

/-- Sequential filtering stages of MemStorage.getConversions, lines 100-132 of
server/storage.ts (and, verbatim, of MemStorage.getConversionsCount).  The
search and date guards follow JS truthiness: an empty search string and an
absent field both skip the corresponding stage. -/
def memApplyFilters (now : Nat) (filters : Option ConversionFilters)
    (l0 : List Conversion) : List Conversion :=
  match filters with
  | none => l0
  | some f =>
    let l1 := match f.search with
      | none => l0
      | some s =>
        if s = "" then l0
        else l0.filter (fun c => jsIncludes (jsToLower c.filename) (jsToLower s))
    let l2 := match f.dateFrom with
      | none => l1
      | some dfrom => l1.filter (fun c => decide (dfrom ≤ memConvDate now c))
    let l3 := match f.dateTo with
      | none => l2
      | some dto => l2.filter (fun c => decide (memConvDate now c ≤ dto))
    let l4 := match f.sizeMin with
      | none => l3
      | some m => l3.filter (fun c => decide (m ≤ c.originalSize))
    let l5 := match f.sizeMax with
      | none => l4
      | some m => l4.filter (fun c => decide (c.originalSize ≤ m))
    l5

/-- Effective sort field: sortOptions?.field || the convertedAt default. -/
def effSortField (sortOptions : Option SortOptions) : SortField :=
  match sortOptions with
  | some so => so.field
  | none => .convertedAt

/-- Effective sort order: sortOptions?.order || the desc default. -/
def effSortOrder (sortOptions : Option SortOptions) : SortOrder :=
  match sortOptions with
  | some so => so.order
  | none => .desc

/-- Pagination stage shared by both backends: slice / skip+limit starting at
(page - 1) * limit. -/
def applyPagination (pagination : Option PaginationOptions)
    (l : List Conversion) : List Conversion :=
  match pagination with
  | some p => ((l.drop ((p.page - 1) * p.limit)).take p.limit)
  | none => l

/-- Private state of a MemStorage instance: the users and conversions arrays
and the two id counters. -/
structure MemState where
  users : List User
  conversions : List Conversion
  userId : Nat
  conversionId : Nat
deriving Repr, DecidableEq

/-- MemStorage.getConversions.  The result of the sequential filters is a
fresh array (Array.prototype.filter copies), which is then sorted in place and
sliced; the instance state is returned unchanged. -/
def memGetConversions (s : MemState) (userId : String)
    (filters : Option ConversionFilters) (sortOptions : Option SortOptions)
    (pagination : Option PaginationOptions) (now : Nat) :
    List Conversion × MemState :=
  let base := s.conversions.filter (fun c => c.userId == userId)
  let filtered := memApplyFilters now filters base
  let sorted := jsSortStable
    (memSortLe (effSortField sortOptions) (effSortOrder sortOptions) now) filtered
  (applyPagination pagination sorted, s)

/-- MemStorage.getConversionsCount, which repeats the filtering pipeline of
getConversions and returns the length of the filtered array. -/
def memGetConversionsCount (s : MemState) (userId : String)
    (filters : Option ConversionFilters) (now : Nat) : Nat × MemState :=
  let base := s.conversions.filter (fun c => c.userId == userId)
  ((memApplyFilters now filters base).length, s)

/-- MemStorage.getConversion: find by stringified id. -/
def memGetConversion (s : MemState) (id : String) :
    Option Conversion × MemState :=
  (s.conversions.find? (fun c => c.id == id), s)

/-- MemStorage.getUserById. -/
def memGetUserById (s : MemState) (id : String) : Option User × MemState :=
  (s.users.find? (fun u => u.id == id), s)

/-- MemStorage.getUserByEmail: exact match on the stored email. -/
def memGetUserByEmail (s : MemState) (email : String) :
    Option User × MemState :=
  (s.users.find? (fun u => u.email == email), s)

/-- MemStorage.createUser.  The source derives the new _id from the
monotonically increasing counter (new ObjectId(this.userId++)); the model
keeps only the counter value as the id string, which preserves distinctness. -/
def memCreateUser (s : MemState) (email password : String) (now : Nat) :
    User × MemState :=
  let u : User := ⟨toString s.userId, email, password, some now⟩
  (u, { s with users := s.users ++ [u], userId := s.userId + 1 })

/-- MemStorage.createConversion, assigning the counter-derived id and the
current time as convertedAt. -/
def memCreateConversion (s : MemState) (userId filename : String)
    (originalSize : Int) (xmlContent : String) (now : Nat) :
    Conversion × MemState :=
  let c : Conversion :=
    ⟨toString s.conversionId, userId, filename, originalSize, xmlContent, some now⟩
  (c, { s with conversions := s.conversions ++ [c],
               conversionId := s.conversionId + 1 })

/-- MemStorage.deleteConversion: remove every record with the given id and
report whether the array shrank. -/
def memDeleteConversion (s : MemState) (id : String) : Bool × MemState :=
  let initialLength := s.conversions.length
  let remaining := s.conversions.filter (fun c => !(c.id == id))
  (decide (remaining.length < initialLength),
   { s with conversions := remaining })

/-- Characters that are metacharacters of the regular-expression dialect used
by the $regex operator.  Left and right curly braces are written by code
point. -/
def isRegexMeta (c : Char) : Bool :=
  c = '.' || c = '*' || c = '+' || c = '?' || c = '^' || c = '$' ||
  c = '(' || c = ')' || c = '[' || c = ']' || c = '|' || c = '\\' ||
  c.toNat = 123 || c.toNat = 125

/-- Matching of a regex pattern at the head of a string, modelled from the
documented semantics of the $regex operator for the fragment the repository
can emit meaningfully: a pattern that is a plain concatenation of literal
characters and the dot wildcard.  The i option makes literals
case-insensitive. -/
def patMatchAt : List Char → List Char → Bool
  | [], _ => true
  | _ :: _, [] => false
  | p :: ps, c :: cs =>
    (if p = '.' then true else p.toLower == c.toLower) && patMatchAt ps cs

/-- Unanchored case-insensitive regex search, as the $regex operator performs
on a field value: the pattern may match at any position. -/
def regexISearch : List Char → List Char → Bool
  | pat, [] => patMatchAt pat []
  | pat, c :: cs => patMatchAt pat (c :: cs) || regexISearch pat cs

/-- Ordering on optional timestamps used by the model of a native MongoDB
sort on convertedAt: per the documented BSON comparison order, a document
missing the field sorts before every document carrying a date. -/
def optNatLe : Option Nat → Option Nat → Bool
  | none, _ => true
  | some _, none => false
  | some a, some b => decide (a ≤ b)

/-- Query document built by MongoDBStorage.getConversions and
getConversionsCount (lines 337-372 and 407-442 of server/storage.ts): an
equality clause on userId, an optional case-insensitive $regex clause on
filename, optional $gte/$lte clauses on convertedAt and on originalSize.  The
JS truthiness guard on filters.search drops an empty search string. -/
structure MongoConvQuery where
  userId : String
  search : Option String
  dateFrom : Option Nat
  dateTo : Option Nat
  sizeMin : Option Int
  sizeMax : Option Int
deriving Repr, DecidableEq

/-- Construction of the query document from the filters, mirroring the
if-chains of the source. -/
def buildConvQuery (userId : String) (filters : Option ConversionFilters) :
    MongoConvQuery :=
  match filters with
  | none => ⟨userId, none, none, none, none, none⟩
  | some f =>
    ⟨userId,
     (match f.search with
      | none => none
      | some s => if s = "" then none else some s),
     f.dateFrom, f.dateTo, f.sizeMin, f.sizeMax⟩

/-- Evaluation of the query document on one stored conversion, modelled from
the documented MongoDB semantics of the emitted operators: equality on
userId, unanchored case-insensitive regex search on filename, and range
clauses that require the queried field to be present, so a document without
convertedAt never satisfies a $gte/$lte clause on it. -/
def mongoMatches (q : MongoConvQuery) (c : Conversion) : Bool :=
  (c.userId == q.userId) &&
  (match q.search with
   | none => true
   | some pat => regexISearch pat.data c.filename.data) &&
  (match q.dateFrom with
   | none => true
   | some dfrom =>
     match c.convertedAt with
     | none => false
     | some t => decide (dfrom ≤ t)) &&
  (match q.dateTo with
   | none => true
   | some dto =>
     match c.convertedAt with
     | none => false
     | some t => decide (t ≤ dto)) &&
  (match q.sizeMin with
   | none => true
   | some m => decide (m ≤ c.originalSize)) &&
  (match q.sizeMax with
   | none => true
   | some m => decide (c.originalSize ≤ m))

/-- Per-comparison order of the native sort directive emitted by
MongoDBStorage.getConversions, modelled from the documented BSON comparison
order: filename compares raw (case-sensitive, byte order on the ASCII
fragment), convertedAt compares with missing values lowest, and the tie order
of the store, which MongoDB leaves unspecified, is modelled as stable. -/
def mongoSortLe (field : SortField) (order : SortOrder) (a b : Conversion) :
    Bool :=
  match field, order with
  | .filename, .asc => !(jsStrLt b.filename a.filename)
  | .filename, .desc => !(jsStrLt a.filename b.filename)
  | .originalSize, .asc => decide (a.originalSize ≤ b.originalSize)
  | .originalSize, .desc => decide (b.originalSize ≤ a.originalSize)
  | .convertedAt, .asc => optNatLe a.convertedAt b.convertedAt
  | .convertedAt, .desc => optNatLe b.convertedAt a.convertedAt

/-- Environment of one MongoDBStorage operation: whether getCollection
returns a usable collection, whether the awaited store operation throws, and
the id the store would assign to an inserted document. -/
structure MongoEnv where
  collectionAvailable : Bool
  opThrows : Bool
  insertedId : String
deriving Repr, DecidableEq

/-- Failure of the persistent store as observed by one operation. -/
def mongoEnvFails (env : MongoEnv) : Bool :=
  !env.collectionAvailable || env.opThrows

/-- MongoDBStorage.getConversions: a missing collection returns the empty
array, a thrown store error is caught and also returns the empty array, and
otherwise the find/sort/skip/limit pipeline runs on the conversions
collection. -/
def mongoGetConversions (env : MongoEnv) (docs : List Conversion)
    (userId : String) (filters : Option ConversionFilters)
    (sortOptions : Option SortOptions) (pagination : Option PaginationOptions) :
    List Conversion :=
  if !env.collectionAvailable then []
  else if env.opThrows then []
  else
    let q := buildConvQuery userId filters
    let found := docs.filter (fun c => mongoMatches q c)
    let sorted := jsSortStable
      (mongoSortLe (effSortField sortOptions) (effSortOrder sortOptions)) found
    applyPagination pagination sorted

/-- MongoDBStorage.getConversionsCount: countDocuments with the same query
document; failures degrade to zero. -/
def mongoGetConversionsCount (env : MongoEnv) (docs : List Conversion)
    (userId : String) (filters : Option ConversionFilters) : Nat :=
  if !env.collectionAvailable then 0
  else if env.opThrows then 0
  else (docs.filter (fun c => mongoMatches (buildConvQuery userId filters) c)).length

/-- MongoDBStorage.getConversion: findOne by id; failures degrade to
absent. -/
def mongoGetConversion (env : MongoEnv) (docs : List Conversion) (id : String) :
    Option Conversion :=
  if !env.collectionAvailable then none
  else if env.opThrows then none
  else docs.find? (fun c => c.id == id)

/-- MongoDBStorage.getUserById; failures degrade to absent. -/
def mongoGetUserById (env : MongoEnv) (users : List User) (id : String) :
    Option User :=
  if !env.collectionAvailable then none
  else if env.opThrows then none
  else users.find? (fun u => u.id == id)

/-- MongoDBStorage.getUserByEmail; failures degrade to absent. -/
def mongoGetUserByEmail (env : MongoEnv) (users : List User) (email : String) :
    Option User :=
  if !env.collectionAvailable then none
  else if env.opThrows then none
  else users.find? (fun u => u.email == email)

/-- MongoDBStorage.createUser: a missing collection raises, and a thrown
insert error is logged and rethrown, so failures propagate to the caller; on
success the returned record carries the inserted id, the input fields and the
current time. -/
def mongoCreateUser (env : MongoEnv) (email password : String) (now : Nat) :
    Except String User :=
  if !env.collectionAvailable then .error "MongoDB collection not available"
  else if env.opThrows then .error "insert failed"
  else .ok ⟨env.insertedId, email, password, some now⟩

/-- MongoDBStorage.createConversion, with the same propagation policy as
createUser. -/
def mongoCreateConversion (env : MongoEnv) (userId filename : String)
    (originalSize : Int) (xmlContent : String) (now : Nat) :
    Except String Conversion :=
  if !env.collectionAvailable then .error "MongoDB collection not available"
  else if env.opThrows then .error "insert failed"
  else .ok ⟨env.insertedId, userId, filename, originalSize, xmlContent, some now⟩

/-- Removal of the first document with the given id, as deleteOne performs. -/
def mongoDeleteOneById (id : String) : List Conversion → List Conversion
  | [] => []
  | c :: cs => if c.id == id then cs else c :: mongoDeleteOneById id cs

/-- MongoDBStorage.deleteConversion: deleteOne by id, reporting whether a
document was deleted; failures degrade to false. -/
def mongoDeleteConversion (env : MongoEnv) (docs : List Conversion)
    (id : String) : Bool × List Conversion :=
  if !env.collectionAvailable then (false, docs)
  else if env.opThrows then (false, docs)
  else (docs.any (fun c => c.id == id), mongoDeleteOneById id docs)

/-- Tag distinguishing the two interchangeable backend implementations, as the
instanceof checks of server/storage-manager.ts distinguish them. -/
inductive BackendTag where
  | mem
  | mongo
deriving Repr, DecidableEq

/-- Process-wide state of the storage manager (server/storage-manager.ts)
together with the data held by the two backends.  The migrationAttempts field
is instrumentation counting how many times migrateMemoryToMongo has run; it
is not a source variable. -/
structure SystemState where
  memUsers : List User
  memConvs : List Conversion
  mongoUsers : List User
  mongoConvs : List Conversion
  active : BackendTag
  hasAttemptedMigration : Bool
  migrationAttempts : Nat
deriving Repr, DecidableEq

/-- migrateMemoryToMongo of server/storage-manager.ts.  The source sets
hasAttemptedMigration to true as its first statement and then only logs: no
user and no conversion is copied into the persistent backend.  The bodyFails
flag models a failure of the remainder of the body, which the caller catches;
the flag assignment precedes it and survives it either way. -/
def migrateMemoryToMongo (st : SystemState) (bodyFails : Bool) : SystemState :=
  let st1 := { st with hasAttemptedMigration := true,
                       migrationAttempts := st.migrationAttempts + 1 }
  if bodyFails then st1 else st1

/-- setStorage of server/storage-manager.ts: swap the active backend, then
attempt the one-time migration exactly when the previous backend was the
in-memory one, the new backend is the persistent one, and no migration has
been attempted yet. -/
def setStorage (st : SystemState) (cmd : BackendTag × Bool) : SystemState :=
  let st1 := { st with active := cmd.fst }
  if st.active = .mem && cmd.fst = .mongo && !st.hasAttemptedMigration
  then migrateMemoryToMongo st1 cmd.snd
  else st1

/-- Manager state at process start: the in-memory backend is active and no
migration has been attempted; the data held by the two backends is
arbitrary. -/
def initialSystem (memUsers : List User) (memConvs : List Conversion)
    (mongoUsers : List User) (mongoConvs : List Conversion) : SystemState :=
  ⟨memUsers, memConvs, mongoUsers, mongoConvs, .mem, false, 0⟩

/-- Run of a sequence of setStorage transitions. -/
def managerRun (init : SystemState) (cmds : List (BackendTag × Bool)) :
    SystemState :=
  cmds.foldl setStorage init

/-- Canonical single-pass form of the filter predicate applied by the
in-memory backend: the conjunction of the provided filter clauses, with the
JS-truthiness skips mirrored. -/
def memKeep (now : Nat) (filters : Option ConversionFilters) (c : Conversion) :
    Bool :=
  match filters with
  | none => true
  | some f =>
    (match f.search with
     | none => true
     | some s =>
       if s = "" then true
       else jsIncludes (jsToLower c.filename) (jsToLower s)) &&
    (match f.dateFrom with
     | none => true
     | some dfrom => decide (dfrom ≤ memConvDate now c)) &&
    (match f.dateTo with
     | none => true
     | some dto => decide (memConvDate now c ≤ dto)) &&
    (match f.sizeMin with
     | none => true
     | some m => decide (m ≤ c.originalSize)) &&
    (match f.sizeMax with
     | none => true
     | some m => decide (c.originalSize ≤ m))

theorem memApplyFilters_eq_filter (now : Nat) (fo : Option ConversionFilters)
    (l : List Conversion) :
    memApplyFilters now fo l = l.filter (fun c => memKeep now fo c) := by
  cases fo with
  | none => simp [memApplyFilters, memKeep]
  | some f =>
    obtain ⟨os, odf, odt, osm, osM⟩ := f
    cases os with
    | none =>
      cases odf <;> cases odt <;> cases osm <;> cases osM <;>
        simp [memApplyFilters, memKeep, List.filter_filter,
          Bool.and_comm, Bool.and_left_comm, Bool.and_assoc]
    | some s =>
      by_cases hs : s = "" <;>
      cases odf <;> cases odt <;> cases osm <;> cases osM <;>
        simp [memApplyFilters, memKeep, hs, List.filter_filter,
          Bool.and_comm, Bool.and_left_comm, Bool.and_assoc]

theorem length_jsInsert (le : α → α → Bool) (a : α) (l : List α) :
    (jsInsert le a l).length = l.length + 1 := by
  induction l with
  | nil => rfl
  | cons b t ih =>
    simp only [jsInsert]
    split <;> simp [ih]

theorem length_jsSortStable (le : α → α → Bool) (l : List α) :
    (jsSortStable le l).length = l.length := by
  induction l with
  | nil => rfl
  | cons a t ih => simp [jsSortStable, length_jsInsert, ih]

theorem mem_jsInsert (le : α → α → Bool) (a x : α) (l : List α) :
    x ∈ jsInsert le a l ↔ x = a ∨ x ∈ l := by
  induction l with
  | nil => simp [jsInsert]
  | cons b t ih =>
    simp only [jsInsert]
    split
    · simp
    · simp [ih]
      tauto

theorem mem_jsSortStable (le : α → α → Bool) (x : α) (l : List α) :
    x ∈ jsSortStable le l ↔ x ∈ l := by
  induction l with
  | nil => simp [jsSortStable]
  | cons a t ih => simp [jsSortStable, mem_jsInsert, ih]

theorem jsInsert_congr (le1 le2 : α → α → Bool) (a : α) (l : List α)
    (h : ∀ y ∈ l, le1 a y = le2 a y) :
    jsInsert le1 a l = jsInsert le2 a l := by
  induction l with
  | nil => rfl
  | cons b t ih =>
    simp only [jsInsert]
    have hb : le1 a b = le2 a b := h b (by simp)
    rw [hb]
    split
    · rfl
    · rw [ih (fun y hy => h y (by simp [hy]))]

theorem jsSortStable_congr (le1 le2 : α → α → Bool) (l : List α)
    (h : ∀ x ∈ l, ∀ y ∈ l, le1 x y = le2 x y) :
    jsSortStable le1 l = jsSortStable le2 l := by
  induction l with
  | nil => rfl
  | cons a t ih =>
    simp only [jsSortStable]
    rw [ih (fun x hx y hy => h x (by simp [hx]) y (by simp [hy]))]
    exact jsInsert_congr le1 le2 a (jsSortStable le2 t)
      (fun y hy => h a (by simp) y
        (by simp [(mem_jsSortStable le2 y t).mp hy]))

theorem listIncludes_nil_needle (hay : List Char) :
    listIncludes hay [] = true := by
  cases hay <;> simp [listIncludes, listStartsWith]

theorem listStartsWith_nil_hay (needle : List Char) :
    listStartsWith [] needle = needle.isEmpty := by
  cases needle <;> simp [listStartsWith]

theorem patMatchAt_eq_startsWith (pat s : List Char)
    (h : ∀ ch ∈ pat, ch ≠ '.') :
    patMatchAt pat s
      = listStartsWith (s.map Char.toLower) (pat.map Char.toLower) := by
  induction pat generalizing s with
  | nil => cases s <;> simp [patMatchAt, listStartsWith]
  | cons p ps ih =>
    cases s with
    | nil => simp [patMatchAt, listStartsWith]
    | cons c cs =>
      have hp : p ≠ '.' := h p (by simp)
      simp only [patMatchAt, List.map_cons, listStartsWith, if_neg hp]
      rw [ih cs (fun ch hch => h ch (by simp [hch]))]

theorem regexISearch_eq_includes (pat s : List Char)
    (h : ∀ ch ∈ pat, ch ≠ '.') :
    regexISearch pat s
      = listIncludes (s.map Char.toLower) (pat.map Char.toLower) := by
  induction s with
  | nil =>
    simp only [regexISearch, List.map_nil, listIncludes]
    rw [patMatchAt_eq_startsWith pat [] h, List.map_nil,
      listStartsWith_nil_hay]
  | cons c cs ih =>
    simp only [regexISearch, List.map_cons, listIncludes]
    rw [patMatchAt_eq_startsWith pat (c :: cs) h, List.map_cons, ih]

/-- Guard that the search filter, when provided, is free of regex
metacharacters, the fragment on which a case-insensitive regex search and a
case-insensitive literal substring search coincide. -/
def searchLiteralB (fo : Option ConversionFilters) : Bool :=
  match fo with
  | none => true
  | some f =>
    match f.search with
    | none => true
    | some s => s.data.all (fun ch => !isRegexMeta ch)

theorem mongoMatches_eq_memKeep (now : Nat) (u : String)
    (fo : Option ConversionFilters) (c : Conversion)
    (hdate : c.convertedAt.isSome = true)
    (hsearch : searchLiteralB fo = true) :
    mongoMatches (buildConvQuery u fo) c = ((c.userId == u) && memKeep now fo c) := by
  cases fo with
  | none => simp [mongoMatches, buildConvQuery, memKeep]
  | some f =>
    obtain ⟨os, odf, odt, osm, osM⟩ := f
    obtain ⟨t, ht⟩ := Option.isSome_iff_exists.mp hdate
    cases os with
    | none =>
      cases odf <;> cases odt <;> cases osm <;> cases osM <;>
        simp [mongoMatches, buildConvQuery, memKeep, ht, memConvDate,
          Bool.and_comm, Bool.and_left_comm, Bool.and_assoc]
    | some s =>
      have hnm : ∀ ch ∈ s.data, ch ≠ '.' := by
        simp only [searchLiteralB, List.all_eq_true] at hsearch
        intro ch hch hdot
        have h2 := hsearch ch hch
        subst hdot
        simp [isRegexMeta] at h2
      have hre := regexISearch_eq_includes s.data c.filename.data hnm
      by_cases hs : s = "" <;>
      cases odf <;> cases odt <;> cases osm <;> cases osM <;>
        simp [mongoMatches, buildConvQuery, memKeep, ht, memConvDate, hs, hre,
          jsIncludes, jsToLower,
          Bool.and_comm, Bool.and_left_comm, Bool.and_assoc]

theorem mongoFilter_eq_memFilter (now : Nat) (u : String)
    (fo : Option ConversionFilters) (l : List Conversion)
    (hdate : l.all (fun c => c.convertedAt.isSome) = true)
    (hsearch : searchLiteralB fo = true) :
    l.filter (fun c => mongoMatches (buildConvQuery u fo) c)
      = memApplyFilters now fo (l.filter (fun c => c.userId == u)) := by
  rw [memApplyFilters_eq_filter, List.filter_filter]
  refine List.filter_congr fun c hc => ?_
  have hd := List.all_eq_true.mp hdate c hc
  rw [mongoMatches_eq_memKeep now u fo c hd hsearch, Bool.and_comm]

theorem mongoSortLe_eq_memSortLe (field : SortField) (order : SortOrder)
    (now : Nat) (a b : Conversion)
    (ha : a.convertedAt.isSome = true) (hb : b.convertedAt.isSome = true)
    (hfield : field ≠ SortField.filename) :
    mongoSortLe field order a b = memSortLe field order now a b := by
  obtain ⟨ta, hta⟩ := Option.isSome_iff_exists.mp ha
  obtain ⟨tb, htb⟩ := Option.isSome_iff_exists.mp hb
  cases field with
  | filename => exact absurd rfl hfield
  | convertedAt =>
    cases order <;>
      simp [mongoSortLe, memSortLe, optNatLe, memConvDate, hta, htb]
  | originalSize => cases order <;> rfl

/-- Claim C1, amended.  When every stored conversion carries a convertedAt
value, the search filter (when provided) contains no regex metacharacters,
and the effective sort field is not filename, the two backends return
identical sequences from getConversions and equal values from
getConversionsCount on identical record sets (the tie order of the store is
modelled as stable).  As stated the claim fails: filename sorting compares
lowercased names in memory but raw names in MongoDB, the search filter is a
literal substring in memory but a regex in MongoDB, and a record without
convertedAt is compared against the clock in memory but never matches a date
filter in MongoDB (see the counterexample). -/
theorem c1_backends_agree (env : MongoEnv) (s : MemState) (u : String)
    (filters : Option ConversionFilters) (sortOptions : Option SortOptions)
    (pagination : Option PaginationOptions) (now : Nat)
    (havail : env.collectionAvailable = true) (hthrow : env.opThrows = false)
    (hdates : s.conversions.all (fun c => c.convertedAt.isSome) = true)
    (hsearch : searchLiteralB filters = true)
    (hfield : effSortField sortOptions ≠ SortField.filename) :
    mongoGetConversions env s.conversions u filters sortOptions pagination
        = (memGetConversions s u filters sortOptions pagination now).fst ∧
      mongoGetConversionsCount env s.conversions u filters
        = (memGetConversionsCount s u filters now).fst := by
  have hfilter := mongoFilter_eq_memFilter now u filters s.conversions hdates hsearch
  have hsub : ∀ x ∈ memApplyFilters now filters
      (s.conversions.filter (fun c => c.userId == u)),
      x.convertedAt.isSome = true := by
    intro x hx
    rw [memApplyFilters_eq_filter] at hx
    have hx1 := (List.mem_filter.mp hx).1
    have hx2 := (List.mem_filter.mp hx1).1
    exact List.all_eq_true.mp hdates x hx2
  constructor
  · simp only [mongoGetConversions, memGetConversions, havail, hthrow,
      Bool.not_true, Bool.false_eq_true, if_false]
    rw [hfilter]
    rw [jsSortStable_congr
      (mongoSortLe (effSortField sortOptions) (effSortOrder sortOptions))
      (memSortLe (effSortField sortOptions) (effSortOrder sortOptions) now)
      _
      (fun a ha b hb => mongoSortLe_eq_memSortLe _ _ now a b
        (hsub a ha) (hsub b hb) hfield)]
  · simp only [mongoGetConversionsCount, memGetConversionsCount, havail, hthrow,
      Bool.not_true, Bool.false_eq_true, if_false]
    rw [hfilter]

/-- Witness for c1_backends_agree at a concrete input. -/
theorem c1_backends_agree_witness :
    mongoGetConversions ⟨true, false, "m"⟩ [⟨"1", "u", "a.pdf", 5, "x", some 10⟩]
        "u" (some ⟨some "a", some 1, some 20, some 0, some 9⟩)
        (some ⟨SortField.originalSize, SortOrder.asc⟩) (some ⟨1, 10⟩)
        = (memGetConversions ⟨[], [⟨"1", "u", "a.pdf", 5, "x", some 10⟩], 1, 2⟩
            "u" (some ⟨some "a", some 1, some 20, some 0, some 9⟩)
            (some ⟨SortField.originalSize, SortOrder.asc⟩) (some ⟨1, 10⟩) 7).fst ∧
      mongoGetConversionsCount ⟨true, false, "m"⟩
          [⟨"1", "u", "a.pdf", 5, "x", some 10⟩] "u"
          (some ⟨some "a", some 1, some 20, some 0, some 9⟩)
        = (memGetConversionsCount ⟨[], [⟨"1", "u", "a.pdf", 5, "x", some 10⟩], 1, 2⟩
            "u" (some ⟨some "a", some 1, some 20, some 0, some 9⟩) 7).fst :=
  c1_backends_agree ⟨true, false, "m"⟩
    ⟨[], [⟨"1", "u", "a.pdf", 5, "x", some 10⟩], 1, 2⟩ "u"
    (some ⟨some "a", some 1, some 20, some 0, some 9⟩)
    (some ⟨SortField.originalSize, SortOrder.asc⟩) (some ⟨1, 10⟩) 7
    rfl rfl (by decide) (by decide) (by decide)

/-- Counterexample to claim C1 as stated: on identical record sets the two
backends disagree on a filename sort with mixed case, on a search string
containing a regex metacharacter, and on a date filter over a record without
convertedAt. -/
theorem c1_backends_diverge :
    (mongoGetConversions ⟨true, false, "m"⟩
        [⟨"1", "u", "a.pdf", 1, "x", some 0⟩, ⟨"2", "u", "B.pdf", 2, "y", some 0⟩]
        "u" none (some ⟨SortField.filename, SortOrder.asc⟩) none
      ≠ (memGetConversions
          ⟨[], [⟨"1", "u", "a.pdf", 1, "x", some 0⟩, ⟨"2", "u", "B.pdf", 2, "y", some 0⟩], 1, 3⟩
          "u" none (some ⟨SortField.filename, SortOrder.asc⟩) none 0).fst) ∧
    (mongoGetConversionsCount ⟨true, false, "m"⟩ [⟨"1", "u", "abc", 1, "x", some 0⟩]
        "u" (some ⟨some ".", none, none, none, none⟩)
      ≠ (memGetConversionsCount ⟨[], [⟨"1", "u", "abc", 1, "x", some 0⟩], 1, 2⟩
          "u" (some ⟨some ".", none, none, none, none⟩) 0).fst) ∧
    (mongoGetConversionsCount ⟨true, false, "m"⟩ [⟨"1", "u", "a", 1, "x", none⟩]
        "u" (some ⟨none, some 0, none, none, none⟩)
      ≠ (memGetConversionsCount ⟨[], [⟨"1", "u", "a", 1, "x", none⟩], 1, 2⟩
          "u" (some ⟨none, some 0, none, none, none⟩) 5).fst) := by
  refine ⟨by decide, by decide, by decide⟩

/-- Claim C2.  For both backends, getConversionsCount equals the length of
the sequence getConversions returns with no pagination, for any sort and the
same snapshot of state, clock and environment. -/
theorem c2_count_eq_length (s : MemState) (u : String)
    (fo : Option ConversionFilters) (so : Option SortOptions) (now : Nat)
    (env : MongoEnv) (docs : List Conversion) :
    (memGetConversionsCount s u fo now).fst
        = ((memGetConversions s u fo so none now).fst).length ∧
      mongoGetConversionsCount env docs u fo
        = (mongoGetConversions env docs u fo so none).length := by
  constructor
  · simp [memGetConversionsCount, memGetConversions, applyPagination,
      length_jsSortStable]
  · by_cases h1 : env.collectionAvailable <;> by_cases h2 : env.opThrows <;>
      simp [mongoGetConversionsCount, mongoGetConversions, h1, h2,
        applyPagination, length_jsSortStable]

/-- Filter predicate written from the specification text of section 4.1: all
clauses optional and conjunctive, search a case-insensitive substring match
on the filename, dateFrom/dateTo inclusive bounds on the time, sizeMin and
sizeMax inclusive bounds on the size. -/
def specAccepts (fo : Option ConversionFilters) (filename : String)
    (time : Nat) (size : Int) : Bool :=
  match fo with
  | none => true
  | some f =>
    (match f.search with
     | none => true
     | some s => jsIncludes (jsToLower filename) (jsToLower s)) &&
    (match f.dateFrom with
     | none => true
     | some dfrom => decide (dfrom ≤ time)) &&
    (match f.dateTo with
     | none => true
     | some dto => decide (time ≤ dto)) &&
    (match f.sizeMin with
     | none => true
     | some m => decide (m ≤ size)) &&
    (match f.sizeMax with
     | none => true
     | some m => decide (size ≤ m))

theorem memKeep_eq_specAccepts (now : Nat) (fo : Option ConversionFilters)
    (c : Conversion) :
    memKeep now fo c
      = specAccepts fo c.filename (memConvDate now c) c.originalSize := by
  cases fo with
  | none => rfl
  | some f =>
    obtain ⟨os, odf, odt, osm, osM⟩ := f
    cases os with
    | none => rfl
    | some s =>
      by_cases hs : s = ""
      · subst hs
        simp [memKeep, specAccepts, jsIncludes, jsToLower,
          listIncludes_nil_needle]
      · simp [memKeep, specAccepts, hs]

/-- Claim C3, amended.  The in-memory backend keeps a record exactly when
every provided filter accepts it with the predicate of the spec, reading an
absent convertedAt as the evaluation-time clock.  The persistent backend
satisfies the same characterization provided the search string contains no
regex metacharacters (its search is a regex match, which then coincides with
a substring match) and the record carries convertedAt (a record without it
never satisfies a date filter there; see the counterexample). -/
theorem c3_filter_semantics (s : MemState) (u : String)
    (fo : Option ConversionFilters) (so : Option SortOptions) (now : Nat)
    (c0 : Conversion) (env : MongoEnv) (docs : List Conversion) :
    (c0 ∈ (memGetConversions s u fo so none now).fst ↔
      c0 ∈ s.conversions ∧ c0.userId = u ∧
        specAccepts fo c0.filename (memConvDate now c0) c0.originalSize = true) ∧
    (env.collectionAvailable = true → env.opThrows = false →
      searchLiteralB fo = true → c0.convertedAt.isSome = true →
      (c0 ∈ mongoGetConversions env docs u fo so none ↔
        c0 ∈ docs ∧ c0.userId = u ∧
          specAccepts fo c0.filename (c0.convertedAt.getD 0) c0.originalSize = true)) := by
  constructor
  · simp only [memGetConversions, applyPagination, mem_jsSortStable,
      memApplyFilters_eq_filter, List.mem_filter, beq_iff_eq,
      memKeep_eq_specAccepts, and_assoc]
  · intro havail hthrow hsearch hdate
    simp only [mongoGetConversions, havail, hthrow, Bool.not_true,
      Bool.false_eq_true, if_false, applyPagination, mem_jsSortStable,
      List.mem_filter]
    rw [mongoMatches_eq_memKeep 0 u fo c0 hdate hsearch]
    have hgd : memConvDate 0 c0 = c0.convertedAt.getD 0 := rfl
    simp [memKeep_eq_specAccepts 0 fo c0, hgd, and_assoc]

/-- Witness for c3_filter_semantics at a concrete input. -/
theorem c3_filter_semantics_witness :
    ((⟨"1", "u", "a.pdf", 5, "x", some 10⟩ : Conversion)
        ∈ (memGetConversions ⟨[], [⟨"1", "u", "a.pdf", 5, "x", some 10⟩], 1, 2⟩
            "u" (some ⟨some "a", some 1, some 20, some 0, some 9⟩) none none 7).fst ↔
      (⟨"1", "u", "a.pdf", 5, "x", some 10⟩ : Conversion)
          ∈ [(⟨"1", "u", "a.pdf", 5, "x", some 10⟩ : Conversion)] ∧
        ("u" : String) = "u" ∧
        specAccepts (some ⟨some "a", some 1, some 20, some 0, some 9⟩)
          "a.pdf" (memConvDate 7 ⟨"1", "u", "a.pdf", 5, "x", some 10⟩) 5 = true) ∧
    ((⟨"1", "u", "a.pdf", 5, "x", some 10⟩ : Conversion)
        ∈ mongoGetConversions ⟨true, false, "m"⟩
            [⟨"1", "u", "a.pdf", 5, "x", some 10⟩] "u"
            (some ⟨some "a", some 1, some 20, some 0, some 9⟩) none none ↔
      (⟨"1", "u", "a.pdf", 5, "x", some 10⟩ : Conversion)
          ∈ [(⟨"1", "u", "a.pdf", 5, "x", some 10⟩ : Conversion)] ∧
        ("u" : String) = "u" ∧
        specAccepts (some ⟨some "a", some 1, some 20, some 0, some 9⟩)
          "a.pdf" ((some 10 : Option Nat).getD 0) 5 = true) := by
  have h := c3_filter_semantics
    ⟨[], [⟨"1", "u", "a.pdf", 5, "x", some 10⟩], 1, 2⟩ "u"
    (some ⟨some "a", some 1, some 20, some 0, some 9⟩) none 7
    ⟨"1", "u", "a.pdf", 5, "x", some 10⟩ ⟨true, false, "m"⟩
    [⟨"1", "u", "a.pdf", 5, "x", some 10⟩]
  exact ⟨h.1, h.2 rfl rfl (by decide) rfl⟩

/-- Counterexample to claim C3 as stated: with the search filter set to the
single metacharacter dot, the persistent backend keeps a record whose
filename does not contain a dot at all, although the provided filter, read as
a case-insensitive substring match, rejects it. -/
theorem c3_regex_divergence :
    mongoGetConversions ⟨true, false, "m"⟩ [⟨"1", "u", "abc", 1, "x", some 0⟩]
        "u" (some ⟨some ".", none, none, none, none⟩) none none
      = [⟨"1", "u", "abc", 1, "x", some 0⟩] ∧
    specAccepts (some ⟨some ".", none, none, none, none⟩) "abc" 0 1 = false := by
  refine ⟨by decide, by decide⟩

/-- Claim C4.  With pagination, both backends return exactly the slice of the
filtered-and-sorted sequence starting at (page - 1) * limit and of length at
most limit, where the unsliced sequence is what the same call returns with no
pagination. -/
theorem c4_pagination_slice (s : MemState) (u : String)
    (fo : Option ConversionFilters) (so : Option SortOptions)
    (p : PaginationOptions) (now : Nat) (env : MongoEnv)
    (docs : List Conversion) (hpage : 1 ≤ p.page) :
    (memGetConversions s u fo so (some p) now).fst
        = (((memGetConversions s u fo so none now).fst).drop
            ((p.page - 1) * p.limit)).take p.limit ∧
      mongoGetConversions env docs u fo so (some p)
        = ((mongoGetConversions env docs u fo so none).drop
            ((p.page - 1) * p.limit)).take p.limit := by
  constructor
  · rfl
  · by_cases h1 : env.collectionAvailable <;> by_cases h2 : env.opThrows <;>
      simp [mongoGetConversions, h1, h2, applyPagination]

/-- Witness for c4_pagination_slice at a concrete input. -/
theorem c4_pagination_slice_witness :
    (memGetConversions ⟨[], [⟨"1", "u", "a", 1, "x", some 3⟩], 1, 2⟩
          "u" none none (some ⟨2, 1⟩) 0).fst
        = (((memGetConversions ⟨[], [⟨"1", "u", "a", 1, "x", some 3⟩], 1, 2⟩
            "u" none none none 0).fst).drop ((2 - 1) * 1)).take 1 ∧
      mongoGetConversions ⟨true, false, "m"⟩ [⟨"1", "u", "a", 1, "x", some 3⟩]
          "u" none none (some ⟨2, 1⟩)
        = ((mongoGetConversions ⟨true, false, "m"⟩
            [⟨"1", "u", "a", 1, "x", some 3⟩] "u" none none none).drop
              ((2 - 1) * 1)).take 1 :=
  c4_pagination_slice ⟨[], [⟨"1", "u", "a", 1, "x", some 3⟩], 1, 2⟩ "u"
    none none ⟨2, 1⟩ 0 ⟨true, false, "m"⟩ [⟨"1", "u", "a", 1, "x", some 3⟩]
    (by decide)

theorem filter_length_lt_iff_any (l : List α) (p : α → Bool) :
    decide ((l.filter p).length < l.length) = l.any (fun a => !p a) := by
  induction l with
  | nil => rfl
  | cons a t ih =>
    by_cases hp : p a
    · simp only [List.filter_cons, hp, if_true, List.length_cons, List.any_cons,
        hp, Bool.not_true, Bool.false_or]
      rw [← ih]
      simp [Nat.succ_lt_succ_iff]
    · have hple := List.length_filter_le p t
      simp only [List.filter_cons, hp, Bool.false_eq_true, if_false,
        List.length_cons, List.any_cons]
      simp only [Bool.not_eq_true] at hp
      simp [hp, Nat.lt_succ_iff, Nat.lt_of_le_of_lt, hple, Nat.lt_succ_of_le]

theorem any_id_mongoDeleteOneById (docs : List Conversion) (id : String)
    (hnodup : (docs.map Conversion.id).Nodup) :
    (mongoDeleteOneById id docs).any (fun c => c.id == id) = false := by
  induction docs with
  | nil => rfl
  | cons d t ih =>
    simp only [List.map_cons, List.nodup_cons] at hnodup
    simp only [mongoDeleteOneById]
    by_cases hd : d.id = id
    · rw [if_pos (by simp [hd])]
      subst hd
      cases hany : t.any (fun c => c.id == d.id) with
      | false => rfl
      | true =>
        exfalso
        obtain ⟨c, hc, hcid⟩ := List.any_eq_true.mp hany
        have hceq : c.id = d.id := by simpa using hcid
        exact hnodup.1 (hceq ▸ List.mem_map_of_mem Conversion.id hc)
    · rw [if_neg (by simp [hd])]
      simp [List.any_cons, hd, ih hnodup.2]

/-- Claim C5.  In both backends deleteConversion returns true exactly when a
record with the id exists in the stored collection (and is then removed), and
deleting the same id a second time returns false; both deletes are total
functions of the state, so no error is raised. -/
theorem c5_delete_iff_existed (s : MemState) (id : String) (env : MongoEnv)
    (docs : List Conversion)
    (havail : env.collectionAvailable = true) (hthrow : env.opThrows = false)
    (hnodup : (docs.map Conversion.id).Nodup) :
    ((memDeleteConversion s id).fst
        = s.conversions.any (fun c => c.id == id)) ∧
      ((memDeleteConversion (memDeleteConversion s id).snd id).fst = false) ∧
      ((mongoDeleteConversion env docs id).fst
        = docs.any (fun c => c.id == id)) ∧
      ((mongoDeleteConversion env
          (mongoDeleteConversion env docs id).snd id).fst = false) := by
  refine ⟨?_, ?_, ?_, ?_⟩
  · simp only [memDeleteConversion]
    rw [filter_length_lt_iff_any]
    simp
  · simp only [memDeleteConversion]
    rw [filter_length_lt_iff_any]
    simp only [Bool.not_not]
    rw [List.any_eq_false]
    intro c hc
    simpa using (List.mem_filter.mp hc).2
  · simp [mongoDeleteConversion, havail, hthrow]
  · simp only [mongoDeleteConversion, havail, hthrow, Bool.not_true,
      Bool.false_eq_true, if_false]
    exact any_id_mongoDeleteOneById docs id hnodup

/-- Witness for c5_delete_iff_existed at a concrete input. -/
theorem c5_delete_iff_existed_witness :
    ((memDeleteConversion ⟨[], [⟨"1", "u", "a", 1, "x", some 0⟩], 1, 2⟩ "1").fst
        = [(⟨"1", "u", "a", 1, "x", some 0⟩ : Conversion)].any (fun c => c.id == "1")) ∧
      ((memDeleteConversion
          (memDeleteConversion ⟨[], [⟨"1", "u", "a", 1, "x", some 0⟩], 1, 2⟩ "1").snd
          "1").fst = false) ∧
      ((mongoDeleteConversion ⟨true, false, "m"⟩
          [⟨"1", "u", "a", 1, "x", some 0⟩] "1").fst
        = [(⟨"1", "u", "a", 1, "x", some 0⟩ : Conversion)].any (fun c => c.id == "1")) ∧
      ((mongoDeleteConversion ⟨true, false, "m"⟩
          (mongoDeleteConversion ⟨true, false, "m"⟩
            [⟨"1", "u", "a", 1, "x", some 0⟩] "1").snd "1").fst = false) :=
  c5_delete_iff_existed ⟨[], [⟨"1", "u", "a", 1, "x", some 0⟩], 1, 2⟩ "1"
    ⟨true, false, "m"⟩ [⟨"1", "u", "a", 1, "x", some 0⟩] rfl rfl (by decide)

/-- Claim C6.  On the persistent backend a failing environment degrades every
read, count and delete to the contract result (empty, zero, absent, false)
while both create operations reject; and a create that returns a record
implies the environment did not fail and the record is exactly the input
fields plus the store-assigned id and the current time, never a fabricated
one. -/
theorem c6_error_policy (env : MongoEnv) (docs : List Conversion)
    (users : List User) (u cid email password userId filename xml : String)
    (size : Int) (fo : Option ConversionFilters) (so : Option SortOptions)
    (pag : Option PaginationOptions) (now : Nat) :
    (mongoEnvFails env = true →
      mongoGetConversions env docs u fo so pag = [] ∧
      mongoGetConversionsCount env docs u fo = 0 ∧
      mongoGetConversion env docs cid = none ∧
      mongoGetUserById env users cid = none ∧
      mongoGetUserByEmail env users email = none ∧
      (mongoDeleteConversion env docs cid).fst = false ∧
      (∃ e, mongoCreateUser env email password now = Except.error e) ∧
      (∃ e, mongoCreateConversion env userId filename size xml now
        = Except.error e)) ∧
    (∀ r, mongoCreateConversion env userId filename size xml now = Except.ok r →
      mongoEnvFails env = false ∧
      r = ⟨env.insertedId, userId, filename, size, xml, some now⟩) ∧
    (∀ r, mongoCreateUser env email password now = Except.ok r →
      mongoEnvFails env = false ∧
      r = ⟨env.insertedId, email, password, some now⟩) := by
  by_cases h1 : env.collectionAvailable <;> by_cases h2 : env.opThrows <;>
    simp [mongoEnvFails, mongoGetConversions, mongoGetConversionsCount,
      mongoGetConversion, mongoGetUserById, mongoGetUserByEmail,
      mongoDeleteConversion, mongoCreateUser, mongoCreateConversion, h1, h2]

/-- Witness for c6_error_policy at concrete inputs: an environment without a
collection degrades reads and rejects creates, and a healthy environment
returns the non-fabricated record. -/
theorem c6_error_policy_witness :
    (mongoGetConversions ⟨false, false, "m"⟩ [] "u" none none none = [] ∧
      (∃ e, mongoCreateConversion ⟨false, false, "m"⟩ "u" "f" 1 "x" 0
        = Except.error e)) ∧
    (mongoEnvFails ⟨true, false, "m"⟩ = false ∧
      (⟨"m", "u", "f", 1, "x", some 0⟩ : Conversion)
        = ⟨"m", "u", "f", 1, "x", some 0⟩) := by
  have hbad := c6_error_policy ⟨false, false, "m"⟩ [] [] "u" "c" "e" "p" "u" "f"
    "x" 1 none none none 0
  have hgood := c6_error_policy ⟨true, false, "m"⟩ [] [] "u" "c" "e" "p" "u" "f"
    "x" 1 none none none 0
  refine ⟨⟨(hbad.1 (by decide)).1, (hbad.1 (by decide)).2.2.2.2.2.2.2⟩, ?_⟩
  exact hgood.2.1 ⟨"m", "u", "f", 1, "x", some 0⟩ rfl

theorem setStorage_attempts_invariant (st : SystemState)
    (cmd : BackendTag × Bool)
    (h : st.migrationAttempts ≤ if st.hasAttemptedMigration then 1 else 0) :
    (setStorage st cmd).migrationAttempts
      ≤ if (setStorage st cmd).hasAttemptedMigration then 1 else 0 := by
  by_cases hcond :
      (st.active = BackendTag.mem && cmd.fst = BackendTag.mongo &&
        !st.hasAttemptedMigration) = true
  · have hflag : st.hasAttemptedMigration = false := by
      simp only [Bool.and_eq_true] at hcond
      simpa using hcond.2
    rw [hflag] at h
    simp at h
    simp only [setStorage, hcond, if_true, migrateMemoryToMongo, ite_self]
    omega
  · simp [setStorage, hcond, h]

/-- Claim C7.  Along any sequence of setStorage transitions in one process
run, starting from the initial manager state, the memory-to-persistent
migration runs at most once, whatever the outcomes of the attempts. -/
theorem c7_migration_at_most_once (memUsers : List User)
    (memConvs : List Conversion) (mongoUsers : List User)
    (mongoConvs : List Conversion) (cmds : List (BackendTag × Bool)) :
    (managerRun (initialSystem memUsers memConvs mongoUsers mongoConvs)
        cmds).migrationAttempts ≤ 1 := by
  have key : ∀ (l : List (BackendTag × Bool)) (st : SystemState),
      st.migrationAttempts ≤ (if st.hasAttemptedMigration then 1 else 0) →
      (l.foldl setStorage st).migrationAttempts
        ≤ (if (l.foldl setStorage st).hasAttemptedMigration then 1 else 0) := by
    intro l
    induction l with
    | nil => exact fun st h => h
    | cons c t ih =>
      intro st h
      exact ih (setStorage st c) (setStorage_attempts_invariant st c h)
  have h0 : (initialSystem memUsers memConvs mongoUsers
      mongoConvs).migrationAttempts
      ≤ if (initialSystem memUsers memConvs mongoUsers
          mongoConvs).hasAttemptedMigration then 1 else 0 := by
    simp [initialSystem]
  have hrun := key cmds _ h0
  refine le_trans hrun ?_
  split <;> omega

/-- Claim C8, evaluated at the failing input.  With one conversion held by
the in-memory backend and an empty persistent store, the transition from
memory to persistent marks the migration attempted but copies nothing: the
persistent backend still holds no conversion record afterwards, contradicting
the documented migration of data created during the outage. -/
theorem c8_migration_copies_nothing :
    (setStorage (initialSystem [] [⟨"1", "u", "doc.pdf", 100, "x", some 0⟩] [] [])
        (BackendTag.mongo, false)).active = BackendTag.mongo ∧
    (setStorage (initialSystem [] [⟨"1", "u", "doc.pdf", 100, "x", some 0⟩] [] [])
        (BackendTag.mongo, false)).hasAttemptedMigration = true ∧
    (setStorage (initialSystem [] [⟨"1", "u", "doc.pdf", 100, "x", some 0⟩] [] [])
        (BackendTag.mongo, false)).memConvs
      = [⟨"1", "u", "doc.pdf", 100, "x", some 0⟩] ∧
    (setStorage (initialSystem [] [⟨"1", "u", "doc.pdf", 100, "x", some 0⟩] [] [])
        (BackendTag.mongo, false)).mongoConvs = [] := by
  refine ⟨by decide, by decide, by decide, by decide⟩

/-- Claim C9.  Every read operation of the in-memory backend returns the
instance state unchanged: getConversions filters into a fresh array and sorts
that copy, so the stored collections and their order survive every read. -/
theorem c9_reads_leave_state (s : MemState) (u cid email : String)
    (fo : Option ConversionFilters) (so : Option SortOptions)
    (pag : Option PaginationOptions) (now : Nat) :
    (memGetConversions s u fo so pag now).snd = s ∧
      (memGetConversionsCount s u fo now).snd = s ∧
      (memGetConversion s cid).snd = s ∧
      (memGetUserById s cid).snd = s ∧
      (memGetUserByEmail s email).snd = s :=
  ⟨rfl, rfl, rfl, rfl, rfl⟩

/-- Claim C10.  In the in-memory backend a conversion without convertedAt is
timed at the evaluation clock: a dateFrom/dateTo filter keeps it exactly when
the clock lies within the bounds, and under the default convertedAt
descending sort its key is the clock, so it precedes a dated record exactly
when that record's time is at most the clock. -/
theorem c10_missing_convertedAt_uses_clock (now dfrom dto t : Nat)
    (u : String) (c d : Conversion)
    (hc : c.convertedAt = none) (hcu : c.userId = u)
    (hd : d.convertedAt = some t) (hdu : d.userId = u) :
    ((memGetConversions ⟨[], [c], 1, 1⟩ u
        (some ⟨none, some dfrom, some dto, none, none⟩) none none now).fst
      = if dfrom ≤ now ∧ now ≤ dto then [c] else []) ∧
    ((memGetConversions ⟨[], [c, d], 1, 1⟩ u none none none now).fst
      = if t ≤ now then [c, d] else [d, c]) := by
  constructor
  · simp only [memGetConversions, memApplyFilters, applyPagination]
    by_cases h1 : dfrom ≤ now <;> by_cases h2 : now ≤ dto <;>
      simp [h1, h2, hc, hcu, memConvDate, jsSortStable, jsInsert]
  · simp only [memGetConversions, memApplyFilters, applyPagination]
    by_cases ht : t ≤ now <;>
      simp [ht, hc, hd, hcu, hdu, memConvDate, effSortField, effSortOrder,
        jsSortStable, jsInsert, memSortLe]

/-- Witness for c10_missing_convertedAt_uses_clock at a concrete input. -/
theorem c10_missing_convertedAt_uses_clock_witness :
    ((memGetConversions ⟨[], [⟨"1", "u", "a", 1, "x", none⟩], 1, 1⟩ "u"
        (some ⟨none, some 2, some 9, none, none⟩) none none 5).fst
      = if 2 ≤ 5 ∧ 5 ≤ 9 then [⟨"1", "u", "a", 1, "x", none⟩] else []) ∧
    ((memGetConversions
        ⟨[], [⟨"1", "u", "a", 1, "x", none⟩, ⟨"2", "u", "b", 2, "y", some 3⟩], 1, 1⟩
        "u" none none none 5).fst
      = if 3 ≤ 5
        then [⟨"1", "u", "a", 1, "x", none⟩, ⟨"2", "u", "b", 2, "y", some 3⟩]
        else [⟨"2", "u", "b", 2, "y", some 3⟩, ⟨"1", "u", "a", 1, "x", none⟩]) :=
  c10_missing_convertedAt_uses_clock 5 2 9 3 "u"
    ⟨"1", "u", "a", 1, "x", none⟩ ⟨"2", "u", "b", 2, "y", some 3⟩
    rfl rfl rfl rfl
